import Mathlib

/-!
Verification of the EPUB image-audit server (`src/api/server.js`).

The source is a small express server whose core is pure string/path
computation: `resolveRef` (built on `path.posix.join` / `normalize` /
`relative`), `stripQueryAndHash`, `decodeRef`, `extractUrlsFromCss`,
`listCandidateImages`, `collectReferences` and the classification loop of
`POST /api/validate`.

Modelling choices:
* Strings are handled through their character lists (`String.data`); every
  embedded operation is a computable function on `List Char` with a
  `String` wrapper carrying the source's name.
* Node's `path.posix` functions are embedded segment-wise, following the
  documented algorithm of `posix.normalize` / `posix.join` /
  `posix.relative`.  `path.posix.relative` resolves both of its arguments
  against the process working directory, so the embedded `resolveRef`
  takes that directory (`cwd`) as an explicit first parameter.
* External collaborators (cheerio / fast-xml-parser parsing, `image-size`,
  unzipping) are modelled as oracle functions supplied to the pipeline, as
  §1 of the spec places them outside the core.  The archive file map is a
  list of `(path, content)` pairs in archive enumeration order, and file
  contents (text or image bytes) are plain strings.
* JS `Set` objects are modelled as lists of the inserted elements;
  only membership is ever consumed.
-/

namespace EpubAudit

/-- JS whitespace for `String.prototype.trim` and the regex class `\s`
(common subset: space, tab, LF, CR, VT, FF). -/
def isJsWs (c : Char) : Bool :=
  c = ' ' || c = '\t' || c = '\n' || c = '\r' || c = '\x0b' || c = '\x0c'

/-- JS `String.prototype.trim` on a character list. -/
def jsTrimL (l : List Char) : List Char :=
  ((l.dropWhile isJsWs).reverse.dropWhile isJsWs).reverse

/-- `startsWith` on character lists (JS `String.prototype.startsWith`). -/
def startsWithL (pre l : List Char) : Bool := decide (pre <+: l)

/-- `const normalize = (p) => p.replace(/\\/g, '/')` (character level). -/
def normalizeL (l : List Char) : List Char :=
  l.map (fun c => if c = '\\' then '/' else c)

/-- Split a character list on a delimiter character, JS
`String.prototype.split` with a single-character separator. -/
def splitOnCharL (d : Char) : List Char → List (List Char)
  | [] => [[]]
  | c :: rest =>
    if c = d then [] :: splitOnCharL d rest
    else
      match splitOnCharL d rest with
      | s :: ss => (c :: s) :: ss
      | [] => [[c]]

/-- Path-segment split (on `'/'`). -/
def splitSegs (l : List Char) : List (List Char) := splitOnCharL '/' l

/-- Join path segments with `'/'`. -/
def joinSegsL : List (List Char) → List Char
  | [] => []
  | [s] => s
  | s :: ss => s ++ '/' :: joinSegsL ss

/-- One step of Node's `normalizeString` segment collapsing, with the stack
kept in reverse order (head = innermost directory).  `allowAbove` is Node's
`allowAboveRoot`: whether leading `..` segments are preserved (true for
relative paths, false for absolute ones). -/
def collapseStepR (allowAbove : Bool) (rstack : List (List Char)) (s : List Char) :
    List (List Char) :=
  if s = [] ∨ s = ['.'] then rstack
  else if s = ['.', '.'] then
    match rstack with
    | t :: ts => if t = ['.', '.'] then (if allowAbove then s :: rstack else rstack) else ts
    | [] => if allowAbove then [s] else []
  else s :: rstack

/-- Node `normalizeString`: collapse `.` / `..` / empty segments. -/
def collapseSegs (allowAbove : Bool) (segs : List (List Char)) : List (List Char) :=
  (segs.foldl (collapseStepR allowAbove) []).reverse

/-- Node `path.posix.normalize` on a character list. -/
def posixNormalizeL (p : List Char) : List Char :=
  if p = [] then ['.']
  else
    let isAbs := p.head? = some '/'
    let trail := p.getLast? = some '/'
    let core := joinSegsL (collapseSegs (!isAbs) (splitSegs p))
    if core = [] then
      if isAbs then ['/'] else if trail then ['.', '/'] else ['.']
    else
      (if isAbs then '/' :: core else core) ++ (if trail then ['/'] else [])

/-- Node `path.posix.join` restricted to two arguments (the only arity the
source uses): concatenate the non-empty parts with `'/'` and normalize;
`'.'` if everything was empty. -/
def posixJoin2L (a b : List Char) : List Char :=
  if a = [] ∧ b = [] then ['.']
  else posixNormalizeL (if a = [] then b else if b = [] then a else a ++ '/' :: b)

/-- Node `path.posix.resolve cwd p` as a segment list: an absolute `p`
stands alone, a relative one is appended to the working directory; dot
segments are collapsed with absolute-path semantics. -/
def resolveSegsL (cwd p : List Char) : List (List Char) :=
  if p.head? = some '/' then collapseSegs false (splitSegs p)
  else collapseSegs false (splitSegs (cwd ++ '/' :: p))

/-- Length of the common prefix of two segment lists. -/
def commonPrefixLen : List (List Char) → List (List Char) → Nat
  | a :: as, b :: bs => if a = b then commonPrefixLen as bs + 1 else 0
  | _, _ => 0

/-- Node `path.posix.relative from to`, resolving both ends against the
working directory `cwd`: climb out of the non-shared part of `from` with
`..` segments, then descend into the non-shared part of `to`. -/
def posixRelativeL (cwd f t : List Char) : List Char :=
  let F := resolveSegsL cwd f
  let T := resolveSegsL cwd t
  let c := commonPrefixLen F T
  joinSegsL (List.replicate (F.length - c) ['.', '.'] ++ T.drop c)

/-- `function stripQueryAndHash(ref) { return ref.split('#')[0].split('?')[0]; }`:
the first element of a JS split is everything before the first occurrence. -/
def stripQueryAndHashL (l : List Char) : List Char :=
  (l.takeWhile (fun c => c ≠ '#')).takeWhile (fun c => c ≠ '?')

def isAsciiAlpha (c : Char) : Bool :=
  ('a' ≤ c && c ≤ 'z') || ('A' ≤ c && c ≤ 'Z')

/-- The test `/^([a-z]+:)?\/\//i.test(href)`: an optional all-letter scheme
followed by `:`, then `//` — equivalently, the string starts with `//`, or
with a non-empty letter run followed by `://`. -/
def urlLikeL (l : List Char) : Bool :=
  startsWithL ['/', '/'] l ||
    (decide (l.takeWhile isAsciiAlpha ≠ []) &&
      startsWithL [':', '/', '/'] (l.dropWhile isAsciiAlpha))

def isHexDigitCh (c : Char) : Bool :=
  c.isDigit || ('a' ≤ c && c ≤ 'f') || ('A' ≤ c && c ≤ 'F')

def hexValCh (c : Char) : Nat :=
  if c.isDigit then c.toNat - 48
  else if 'a' ≤ c && c ≤ 'f' then c.toNat - 87
  else c.toNat - 55

/-- Code points whose escapes `decodeURI` leaves untouched:
`; / ? : @ & = + $ , #`. -/
def uriKeepEscaped (v : Nat) : Bool :=
  v = 0x23 || v = 0x24 || v = 0x26 || v = 0x2b || v = 0x2c || v = 0x2f ||
    v = 0x3a || v = 0x3b || v = 0x3d || v = 0x3f || v = 0x40

/-- Percent-decoding as performed by JS `decodeURI`, restricted to
single-byte (ASCII) escape sequences; reserved characters stay escaped, and
a malformed or multi-byte sequence is a failure (`none`), which
`decodeRef`'s `catch` turns into the identity.  (The source's `decodeURI`
also decodes multi-byte UTF-8 escapes; no claim depends on those.) -/
def percentDecodeL : List Char → Option (List Char)
  | [] => some []
  | c :: rest =>
    if c = '%' then
      match rest with
      | a :: b :: r =>
        if isHexDigitCh a && isHexDigitCh b then
          let v := hexValCh a * 16 + hexValCh b
          if v < 128 then
            if uriKeepEscaped v then (percentDecodeL r).map (fun t => '%' :: a :: b :: t)
            else (percentDecodeL r).map (fun t => Char.ofNat v :: t)
          else none
        else none
      | _ => none
    else (percentDecodeL rest).map (fun t => c :: t)

/-- `function decodeRef(ref) { try { return decodeURI(ref); } catch { return ref; } }` -/
def decodeRefL (l : List Char) : List Char := (percentDecodeL l).getD l

/-- `baseFilePath.replace(/[^/]+$/, '')`: drop the trailing run of
non-slash characters (the file name), keeping the directory prefix. -/
def dropLastSegL (l : List Char) : List Char :=
  (l.reverse.dropWhile (fun c => c ≠ '/')).reverse

/-- The path computed by `resolveRef` before the content-root containment
check: clean the reference (trim, strip fragment/query, percent-decode,
drop one leading slash), then
`normalize(path.posix.normalize(safeJoin(baseDir, clean)))` where
`safeJoin = normalize ∘ path.posix.join` and `baseDir` is the directory of
the (backslash-normalized) base file path. -/
def resolvedPathL (base href : List Char) : List Char :=
  let clean0 := stripQueryAndHashL (jsTrimL href)
  let clean1 := decodeRefL clean0
  let clean2 := if startsWithL ['/'] clean1 then clean1.tail else clean1
  let baseDir := dropLastSegL (normalizeL base)
  normalizeL (posixNormalizeL (normalizeL (posixJoin2L baseDir clean2)))

/-- `function resolveRef(baseFilePath, href, contentRoot = '')` on character
lists.  `cwd` is the process working directory consumed by
`path.posix.relative` when it resolves its two relative arguments.  An
empty result is the source's falsy `''`, i.e. Unresolvable. -/
def resolveRefL (cwd base href root : List Char) : List Char :=
  if href = [] then []
  else if urlLikeL href || startsWithL ['d', 'a', 't', 'a', ':'] href then []
  else
    let abs := resolvedPathL base href
    if root ≠ [] then
      if startsWithL ['.', '.'] (posixRelativeL cwd (normalizeL root) abs) then [] else abs
    else abs

/-- String-level `resolveRef` (the source function; `cwd` as above). -/
def resolveRef (cwd baseFilePath href contentRoot : String) : String :=
  ⟨resolveRefL cwd.data baseFilePath.data href.data contentRoot.data⟩

/-! ### `extractUrlsFromCss`

The regex `/url\(\s*(["']?)([^)"']+)\1\s*\)/gi` scanned globally.  At a
match position: literal `url(` (case-insensitive), optional whitespace, an
optional quote, a non-empty run of characters other than `)`, `"`, `'`
(captured — greedy, so an unquoted body keeps trailing whitespace), the
matching quote, optional whitespace, `)`.  The global scan restarts after
each match, advancing one character past positions that do not match. -/

def urlBodyStop (c : Char) : Bool := c = ')' || c = '"' || c = '\''

/-- Try to complete a match just after the literal `url(`: returns the
captured body and the remainder after the closing `)`. -/
def urlAfterParen (l : List Char) : Option (List Char × List Char) :=
  let l1 := l.dropWhile isJsWs
  match l1 with
  | '"' :: rest =>
    let body := rest.takeWhile (fun c => !urlBodyStop c)
    (match rest.dropWhile (fun c => !urlBodyStop c) with
     | '"' :: rem2 =>
       (match rem2.dropWhile isJsWs with
        | ')' :: r => if body = [] then none else some (body, r)
        | _ => none)
     | _ => none)
  | '\'' :: rest =>
    let body := rest.takeWhile (fun c => !urlBodyStop c)
    (match rest.dropWhile (fun c => !urlBodyStop c) with
     | '\'' :: rem2 =>
       (match rem2.dropWhile isJsWs with
        | ')' :: r => if body = [] then none else some (body, r)
        | _ => none)
     | _ => none)
  | _ =>
    let body := l1.takeWhile (fun c => !urlBodyStop c)
    (match l1.dropWhile (fun c => !urlBodyStop c) with
     | ')' :: r => if body = [] then none else some (body, r)
     | _ => none)

/-- Consume a case-insensitive `url(` prefix. -/
def matchUrlParen : List Char → Option (List Char)
  | u :: r :: l :: p :: rest =>
    if u.toLower = 'u' ∧ r.toLower = 'r' ∧ l.toLower = 'l' ∧ p = '(' then some rest
    else none
  | _ => none

/-- Fueled global scan (fuel bounds the scan position; each step advances). -/
def scanUrls : Nat → List Char → List (List Char)
  | 0, _ => []
  | _ + 1, [] => []
  | fuel + 1, c :: rest =>
    match matchUrlParen (c :: rest) with
    | some after =>
      (match urlAfterParen after with
       | some (body, rem) => body :: scanUrls fuel rem
       | none => scanUrls fuel rest)
    | none => scanUrls fuel rest

/-- `function extractUrlsFromCss(cssText)`. -/
def extractUrlsFromCss (cssText : String) : List String :=
  (scanUrls (cssText.data.length + 1) cssText.data).map (fun l => ⟨l⟩)

/-! ### The validate pipeline -/

/-- Lowercasing used for the `.toLowerCase()` extension and folder tests. -/
def lowerL (l : List Char) : List Char := l.map Char.toLower

/-- `p.toLowerCase().endsWith(suffix)` for a lowercase ASCII suffix. -/
def endsWithCI (suffix : List Char) (p : String) : Bool :=
  decide (suffix <:+ lowerL p.data)

/-- The Options record built from the request query (§3 of the spec). -/
structure Options where
  includeHtml : Bool
  includeCss : Bool
  includeSvg : Bool
  searchAllImages : Bool
  followOpfManifestOnly : Bool
  pixelThreshold : Int
deriving DecidableEq

/-- What cheerio extraction yields from one markup document: the `src`
values of `img[src]`, the raw `srcset` attribute values, the raw inline
`style` attribute values, and the `href`/`xlink:href` values of `<image>`
elements (a missing attribute is the empty string, which `resolveRef`
rejects exactly like JS `undefined`). -/
structure MarkupDoc where
  imgSrcs : List String
  srcsets : List String
  styleAttrs : List String
  imageHrefs : List String
deriving DecidableEq

/-- What cheerio extraction yields from one vector (SVG) document. -/
structure SvgDoc where
  imageHrefs : List String
  styleTexts : List String
deriving DecidableEq

/-- The external collaborators (spec §1/§6): parsers, the container /
package XML readers built on `fast-xml-parser`, and `image-size`.
`parseMarkup` receives cheerio's `xmlMode` flag; `parseSvg` returns `none`
when `cheerio.load` throws on malformed XML (the source's `catch`);
`containerRoot` models `getContentRootFromContainerXml` (its soft failures
return `''`); `opfImages` models `getManifestImagesFromOpf` (its soft
failures return the empty set); `imageDims` models `imageSize` on the raw
bytes, `none` when it throws or reports no/zero dimensions. -/
structure Oracles where
  parseMarkup : Bool → String → MarkupDoc
  parseSvg : String → Option SvgDoc
  containerRoot : String → String
  opfImages : String → List String
  imageDims : String → Option (Nat × Nat)

/-- `part.trim().split(' ')[0]` for every comma-separated `srcset` part. -/
def srcsetCandidates (s : String) : List String :=
  (splitOnCharL ',' s.data).map (fun part => ⟨(jsTrimL part).takeWhile (fun c => c ≠ ' ')⟩)

/-- Document-extension test: `.xhtml` always, `.html`/`.htm` when
`includeHtml` is set. -/
def isDocPath (opts : Options) (p : String) : Bool :=
  endsWithCI ['.', 'x', 'h', 't', 'm', 'l'] p ||
    (opts.includeHtml &&
      (endsWithCI ['.', 'h', 't', 'm', 'l'] p || endsWithCI ['.', 'h', 't', 'm'] p))

def isCssPath (p : String) : Bool := endsWithCI ['.', 'c', 's', 's'] p

def isSvgPath (p : String) : Bool := endsWithCI ['.', 's', 'v', 'g'] p

/-- The raw reference strings extracted from one markup document, in the
source's order: `img[src]`, then every `srcset` candidate, then the
`url(...)` bodies of inline `style` attributes, then (when `includeSvg`)
the `<image>` links. -/
def markupRawRefs (o : Oracles) (opts : Options) (p text : String) : List String :=
  let d := o.parseMarkup (endsWithCI ['.', 'x', 'h', 't', 'm', 'l'] p) text
  d.imgSrcs ++ d.srcsets.flatMap srcsetCandidates ++
    d.styleAttrs.flatMap extractUrlsFromCss ++
    (if opts.includeSvg then d.imageHrefs else [])

/-- All raw references one archive member contributes under the active
options: the markup rules when its extension classifies it as a document,
the stylesheet rule when it is a `.css` file and `includeCss` is set, and
the vector rules when it is a `.svg` file and `includeSvg` is set (nothing
when the vector parse fails — the source's `catch { /* ignore */ }`). -/
def extractedRawRefs (o : Oracles) (opts : Options) (p text : String) : List String :=
  (if isDocPath opts p then markupRawRefs o opts p text else []) ++
    (if opts.includeCss && isCssPath p then extractUrlsFromCss text else []) ++
    (if opts.includeSvg && isSvgPath p then
      match o.parseSvg text with
      | some d => d.imageHrefs ++ d.styleTexts.flatMap extractUrlsFromCss
      | none => []
    else [])

/-- `resolveRef` wrapped for set insertion: `if (abs) usedAbs.add(abs)`. -/
def resolveRefOpt (cwd p r root : String) : Option String :=
  let a := resolveRef cwd p r root
  if a = "" then none else some a

/-- `function collectReferences({ files, contentRoot, options })`: walk
every file, resolve each extracted raw reference against the file's own
path and the content root, and collect the successful resolutions (the JS
`Set` modelled as the insertion list; only membership matters). -/
def collectReferences (o : Oracles) (opts : Options) (cwd contentRoot : String)
    (files : List (String × String)) : List String :=
  files.flatMap (fun pt =>
    (extractedRawRefs o opts pt.1 pt.2).filterMap
      (fun r => resolveRefOpt cwd pt.1 r contentRoot))

/-- Image-extension test of `listCandidateImages`
(`exts.some(e => p.toLowerCase().endsWith(e))`). -/
def isImageFile (p : String) : Bool :=
  endsWithCI ['.', 'p', 'n', 'g'] p || endsWithCI ['.', 'j', 'p', 'g'] p ||
    endsWithCI ['.', 'j', 'p', 'e', 'g'] p || endsWithCI ['.', 'g', 'i', 'f'] p

/-- `p.toLowerCase().split('/').includes('images')`. -/
def inImagesFolder (p : String) : Bool :=
  (splitOnCharL '/' (lowerL p.data)).contains ['i', 'm', 'a', 'g', 'e', 's']

/-- `function listCandidateImages(files, options)`. -/
def listCandidateImages (files : List (String × String)) (opts : Options) : List String :=
  (files.map Prod.fst).filter
    (fun p => isImageFile p && (opts.searchAllImages || inImagesFolder p))

/-- `IMG_EXT_REGEX = /\.(png|jpe?g|gif)$/i` applied to a path. -/
def imgExtTest (p : String) : Bool :=
  endsWithCI ['.', 'p', 'n', 'g'] p || endsWithCI ['.', 'j', 'p', 'g'] p ||
    endsWithCI ['.', 'j', 'p', 'e', 'g'] p || endsWithCI ['.', 'g', 'i', 'f'] p

/-- The content root of the run: `files.get('META-INF/container.xml')`
parsed by `getContentRootFromContainerXml`, `''` when the container is
absent. -/
def contentRootOf (o : Oracles) (files : List (String × String)) : String :=
  match files.find? (fun pt => pt.1 = "META-INF/container.xml") with
  | some pt => o.containerRoot pt.2
  | none => ""

/-- The manifest-image set (`manifestAbs`): built only when
`followOpfManifestOnly` is set and a content root was found, from the first
file under the content root with extension `.opf`; each declared href is
joined against the content root.  Empty in every other case. -/
def manifestAbsOf (o : Oracles) (opts : Options) (files : List (String × String))
    (contentRoot : String) : List String :=
  if opts.followOpfManifestOnly && contentRoot ≠ "" then
    match files.find? (fun pt =>
        decide (contentRoot.data <+: pt.1.data) && endsWithCI ['.', 'o', 'p', 'f'] pt.1) with
    | some pt =>
      (o.opfImages pt.2).map (fun h =>
        ⟨normalizeL (posixJoin2L (normalizeL contentRoot.data) (normalizeL h.data))⟩)
    | none => []
  else []

/-- `candidatesAbs`: the candidate images, restricted to the manifest-image
set whenever `followOpfManifestOnly` is set
(`if (options.followOpfManifestOnly && !manifestAbs.has(p)) continue;`). -/
def candidatesAbsOf (o : Oracles) (opts : Options) (files : List (String × String)) :
    List String :=
  let manifest := manifestAbsOf o opts files (contentRootOf o files)
  (listCandidateImages files opts).filter
    (fun p => !(opts.followOpfManifestOnly && !manifest.contains p))

/-- One entry of the `oversized` output list. -/
structure OversizedEntry where
  path : String
  width : Nat
  height : Nat
  px : Nat
deriving DecidableEq

/-- `files.get(abs)` followed by `imageSize(...)`: the probed dimensions of
a candidate, `none` when the lookup or the probe fails. -/
def dimOf (o : Oracles) (files : List (String × String)) (p : String) : Option (Nat × Nat) :=
  match files.find? (fun pt => pt.1 = p) with
  | some pt => o.imageDims pt.2
  | none => none

/-- The oversized test
`dim?.width && dim?.height && (dim.width * dim.height >= options.pixelThreshold)`
(JS falsy zero/undefined dimensions modelled as `0`). -/
def oversizedCheck (dim : Option (Nat × Nat)) (threshold : Int) : Bool :=
  match dim with
  | some wh => wh.1 ≠ 0 && wh.2 ≠ 0 && decide (threshold ≤ (wh.1 : Int) * (wh.2 : Int))
  | none => false

/-- The `oversized` entry a candidate produces, if any: the extension must
match `IMG_EXT_REGEX`, the probe must succeed, and the area test must pass
(on probe failure the `catch {}` skips the candidate). -/
def oversizedEntryOf (o : Oracles) (opts : Options) (files : List (String × String))
    (a : String) : Option OversizedEntry :=
  if imgExtTest a then
    match dimOf o files a with
    | some wh =>
      if oversizedCheck (some wh) opts.pixelThreshold then
        some ⟨a, wh.1, wh.2, wh.1 * wh.2⟩
      else none
    | none => none
  else none

/-- The classification result of one `POST /api/validate` run (entries
reduced to their data: `file`/`fullPath` are derived display fields). -/
structure ValidateResult where
  unreferenced : List String
  oversized : List OversizedEntry
  contentRoot : String
deriving DecidableEq

/-- The classification loop of `app.post('/api/validate')`: candidates not
in the used-set become `unreferenced`; raster candidates whose probed area
passes the threshold become `oversized`.  Both lists keep candidate
enumeration order. -/
def validate (o : Oracles) (opts : Options) (cwd : String)
    (files : List (String × String)) : ValidateResult :=
  let used := collectReferences o opts cwd (contentRootOf o files) files
  { unreferenced := (candidatesAbsOf o opts files).filter (fun a => !used.contains a)
    oversized := (candidatesAbsOf o opts files).filterMap (oversizedEntryOf o opts files)
    contentRoot := contentRootOf o files }

/-! ### The pixel-threshold option -/

def DEFAULT_PIXEL_THRESHOLD : Int := 5600000

/-- Digit-run parser for `jsNumberInt`. -/
def parseDigits (l : List Char) : Option Nat :=
  if l ≠ [] ∧ l.all Char.isDigit then
    some (l.foldl (fun a c => a * 10 + (c.toNat - 48)) 0)
  else none

/-- JS `Number(string)` restricted to optional-sign decimal integer
literals: surrounding whitespace is trimmed, a whitespace-only string is
`0`, and any string outside this integer grammar is treated as `NaN`
(`none`).  (The real `Number` also accepts float/hex/exponent literals; no
claim depends on those.) -/
def jsNumberInt (s : String) : Option Int :=
  let t := jsTrimL s.data
  if t = [] then some 0
  else
    match t with
    | '-' :: r => (parseDigits r).map (fun n => -(n : Int))
    | '+' :: r => (parseDigits r).map (fun n => (n : Int))
    | _ => (parseDigits t).map (fun n => (n : Int))

/-- `pixelThreshold: Number(q.pixelThreshold || DEFAULT_PIXEL_THRESHOLD) || DEFAULT_PIXEL_THRESHOLD`:
an absent or empty query value falls back before parsing; a parse result of
`NaN` or `0` falls back after. -/
def effectivePixelThreshold (q : Option String) : Int :=
  match q with
  | none => DEFAULT_PIXEL_THRESHOLD
  | some s =>
    if s = "" then DEFAULT_PIXEL_THRESHOLD
    else
      match jsNumberInt s with
      | none => DEFAULT_PIXEL_THRESHOLD
      | some n => if n = 0 then DEFAULT_PIXEL_THRESHOLD else n

/-! ### Basic lemmas -/

theorem mk_eq_empty_iff (l : List Char) : (⟨l⟩ : String) = "" ↔ l = [] :=
  ⟨fun h => congrArg String.data h, fun h => String.ext h⟩

theorem normalizeL_eq_nil_iff (l : List Char) : normalizeL l = [] ↔ l = [] := by
  simp [normalizeL]

theorem posixNormalizeL_ne_nil (p : List Char) : posixNormalizeL p ≠ [] := by
  unfold posixNormalizeL
  split_ifs <;> simp_all
  split_ifs <;> simp_all

theorem posixJoin2L_ne_nil (a b : List Char) : posixJoin2L a b ≠ [] := by
  unfold posixJoin2L
  split_ifs with h h1 h2
  · simp
  · exact posixNormalizeL_ne_nil _
  · exact posixNormalizeL_ne_nil _
  · exact posixNormalizeL_ne_nil _

theorem resolvedPathL_ne_nil (base href : List Char) : resolvedPathL base href ≠ [] := by
  unfold resolvedPathL
  intro h
  rw [normalizeL_eq_nil_iff] at h
  exact posixNormalizeL_ne_nil _ h

/-- `resolveRef` collapses to `''` whenever the URL/data-URI test fires. -/
theorem resolveRefL_rejected (cwd base href root : List Char)
    (h : (urlLikeL href || startsWithL ['d', 'a', 't', 'a', ':'] href) = true) :
    resolveRefL cwd base href root = [] := by
  by_cases he : href = []
  · simp [resolveRefL, he]
  · simp [resolveRefL, he, h]

theorem urlLikeL_scheme (s r : List Char) (hs : s ≠ [])
    (ha : ∀ c ∈ s, isAsciiAlpha c = true) :
    urlLikeL (s ++ ':' :: '/' :: '/' :: r) = true := by
  have hc : isAsciiAlpha ':' = false := by decide
  unfold urlLikeL
  rw [List.takeWhile_append_of_pos ha, List.dropWhile_append_of_pos ha,
    List.takeWhile_cons_of_neg (by simp [hc]), List.dropWhile_cons_of_neg (by simp [hc])]
  have h3 : startsWithL [':', '/', '/'] (':' :: '/' :: '/' :: r) = true := by
    simp only [startsWithL, decide_eq_true_eq]
    exact ⟨r, rfl⟩
  rw [h3]
  simp [hs]

theorem urlLikeL_slashslash (r : List Char) : urlLikeL ('/' :: '/' :: r) = true := by
  have h1 : startsWithL ['/', '/'] ('/' :: '/' :: r) = true := by
    simp only [startsWithL, decide_eq_true_eq]
    exact ⟨r, rfl⟩
  unfold urlLikeL
  rw [h1]
  simp

/-- With an empty content root, `resolveRef` on a reference passing the
early checks is exactly the joined path (no containment filtering). -/
theorem resolveRefL_no_root (cwd base href : List Char) (h1 : href ≠ [])
    (h2 : (urlLikeL href || startsWithL ['d', 'a', 't', 'a', ':'] href) = false) :
    resolveRefL cwd base href [] = resolvedPathL base href := by
  unfold resolveRefL
  rw [if_neg h1, if_neg (by simp [h2])]
  simp

/-- `resolveRef` past the early rejections: containment check around the
joined path. -/
theorem resolveRefL_main (cwd base href root : List Char) (h1 : href ≠ [])
    (h2 : (urlLikeL href || startsWithL ['d', 'a', 't', 'a', ':'] href) = false) :
    resolveRefL cwd base href root =
      (if root ≠ [] then
        (if startsWithL ['.', '.']
            (posixRelativeL cwd (normalizeL root) (resolvedPathL base href)) = true
          then [] else resolvedPathL base href)
      else resolvedPathL base href) := by
  unfold resolveRefL
  rw [if_neg h1, if_neg (by simp [h2])]

/-! ### C5 — empty and fragment-only references -/

/-- C5 counterexample: the claim asserts that a fragment-only reference is
Unresolvable, but `resolveRef('OEBPS/doc.xhtml', '#anchor')` strips the
fragment to the empty string and `path.posix.join(baseDir, '')` then yields
the base directory `'OEBPS/'`, a non-empty (truthy) result. -/
theorem fragment_only_cex :
    resolveRef "/" "OEBPS/doc.xhtml" "#anchor" "" = "OEBPS/" ∧ ("OEBPS/" : String) ≠ "" :=
  ⟨by decide, by decide⟩

/-- C5 (amended): an empty reference is Unresolvable, but a fragment-only
reference such as `#anchor` is not: under an empty root it resolves to the
referencing document's own directory (never the empty string). -/
theorem empty_and_fragment_refs :
    (∀ cwd base root : String, resolveRef cwd base "" root = "") ∧
    (∀ cwd base : String, resolveRef cwd base "#anchor" "" ≠ "") := by
  constructor
  · intro cwd base root
    apply String.ext
    show resolveRefL cwd.data base.data [] root.data = []
    simp [resolveRefL]
  · intro cwd base h
    have h0 : resolveRefL cwd.data base.data "#anchor".data [] = [] :=
      congrArg String.data h
    have h2 : resolveRefL cwd.data base.data "#anchor".data []
        = resolvedPathL base.data "#anchor".data :=
      resolveRefL_no_root _ _ _ (by decide) (by decide)
    exact resolvedPathL_ne_nil _ _ (h2.symm.trans h0)

/-! ### C6 — absolute URLs and data URIs are Unresolvable -/

/-- C6: a reference that is an absolute URL (`scheme://...` for a non-empty
letter scheme, or protocol-relative `//...`) or a data URI (`data:...`)
resolves to Unresolvable regardless of base or root. -/
theorem absolute_url_unresolvable :
    (∀ (cwd base root : String) (s r : List Char), s ≠ [] →
        (∀ c ∈ s, isAsciiAlpha c = true) →
        resolveRef cwd base ⟨s ++ ':' :: '/' :: '/' :: r⟩ root = "") ∧
    (∀ (cwd base root : String) (r : List Char),
        resolveRef cwd base ⟨'/' :: '/' :: r⟩ root = "") ∧
    (∀ (cwd base root : String) (r : List Char),
        resolveRef cwd base ⟨'d' :: 'a' :: 't' :: 'a' :: ':' :: r⟩ root = "") := by
  refine ⟨?_, ?_, ?_⟩
  · intro cwd base root s r hs ha
    apply String.ext
    show resolveRefL cwd.data base.data (s ++ ':' :: '/' :: '/' :: r) root.data = []
    exact resolveRefL_rejected _ _ _ _ (by rw [urlLikeL_scheme s r hs ha]; simp)
  · intro cwd base root r
    apply String.ext
    show resolveRefL cwd.data base.data ('/' :: '/' :: r) root.data = []
    exact resolveRefL_rejected _ _ _ _ (by rw [urlLikeL_slashslash r]; simp)
  · intro cwd base root r
    apply String.ext
    show resolveRefL cwd.data base.data ('d' :: 'a' :: 't' :: 'a' :: ':' :: r) root.data = []
    apply resolveRefL_rejected
    have hd : startsWithL ['d', 'a', 't', 'a', ':']
        ('d' :: 'a' :: 't' :: 'a' :: ':' :: r) = true := by
      simp only [startsWithL, decide_eq_true_eq]
      exact ⟨r, rfl⟩
    rw [hd]
    simp

theorem absolute_url_unresolvable_witness :
    resolveRef "/" "OEBPS/doc.xhtml" "https://cdn.example.com/pic.png" "OEBPS/" = "" ∧
    resolveRef "/" "OEBPS/doc.xhtml" "data:image/png;base64,AAAA" "OEBPS/" = "" :=
  ⟨absolute_url_unresolvable.1 "/" "OEBPS/doc.xhtml" "OEBPS/"
      ['h', 't', 't', 'p', 's'] "cdn.example.com/pic.png".data (by decide) (by decide),
   absolute_url_unresolvable.2.2 "/" "OEBPS/doc.xhtml" "OEBPS/" "image/png;base64,AAAA".data⟩

/-! ### C10 — pixel-threshold defaulting -/

/-- C10: an absent, non-numeric, or zero-parsing `pixelThreshold` query
value yields the default threshold 5,600,000, and no query value can make
the effective threshold 0. -/
theorem pixel_threshold_default :
    effectivePixelThreshold none = DEFAULT_PIXEL_THRESHOLD ∧
    (∀ s : String, jsNumberInt s = none →
        effectivePixelThreshold (some s) = DEFAULT_PIXEL_THRESHOLD) ∧
    (∀ s : String, jsNumberInt s = some 0 →
        effectivePixelThreshold (some s) = DEFAULT_PIXEL_THRESHOLD) ∧
    (∀ q : Option String, effectivePixelThreshold q ≠ 0) := by
  refine ⟨rfl, ?_, ?_, ?_⟩
  · intro s h
    by_cases hs : s = ""
    · simp [effectivePixelThreshold, hs]
    · simp [effectivePixelThreshold, hs, h]
  · intro s h
    by_cases hs : s = ""
    · simp [effectivePixelThreshold, hs]
    · simp [effectivePixelThreshold, hs, h]
  · intro q
    rcases q with _ | s
    · simp [effectivePixelThreshold, DEFAULT_PIXEL_THRESHOLD]
    · by_cases hs : s = ""
      · simp [effectivePixelThreshold, hs, DEFAULT_PIXEL_THRESHOLD]
      · rcases h : jsNumberInt s with _ | n
        · simp [effectivePixelThreshold, hs, h, DEFAULT_PIXEL_THRESHOLD]
        · by_cases hn : n = 0
          · simp [effectivePixelThreshold, hs, h, hn, DEFAULT_PIXEL_THRESHOLD]
          · simp [effectivePixelThreshold, hs, h, hn]

theorem pixel_threshold_default_witness :
    effectivePixelThreshold (some "abc") = DEFAULT_PIXEL_THRESHOLD ∧
    effectivePixelThreshold (some "0") = DEFAULT_PIXEL_THRESHOLD ∧
    effectivePixelThreshold (some "250000") ≠ 0 :=
  ⟨pixel_threshold_default.2.1 "abc" (by decide),
   pixel_threshold_default.2.2.1 "0" (by decide),
   pixel_threshold_default.2.2.2 (some "250000")⟩

/-! ### Pipeline lemmas and concrete fixtures -/

theorem validate_unreferenced_eq (o : Oracles) (opts : Options) (cwd : String)
    (files : List (String × String)) :
    (validate o opts cwd files).unreferenced
      = (candidatesAbsOf o opts files).filter
          (fun a => !(collectReferences o opts cwd (contentRootOf o files) files).contains a) :=
  rfl

theorem validate_oversized_eq (o : Oracles) (opts : Options) (cwd : String)
    (files : List (String × String)) :
    (validate o opts cwd files).oversized
      = (candidatesAbsOf o opts files).filterMap (oversizedEntryOf o opts files) :=
  rfl

theorem mem_collectReferences (o : Oracles) (opts : Options) (cwd root : String)
    (files : List (String × String)) (x : String) :
    x ∈ collectReferences o opts cwd root files ↔
      ∃ pt ∈ files, ∃ r ∈ extractedRawRefs o opts pt.1 pt.2,
        resolveRefOpt cwd pt.1 r root = some x := by
  unfold collectReferences
  simp [List.mem_flatMap, List.mem_filterMap]

theorem isImageFile_ne_empty (p : String) (h : isImageFile p = true) : p ≠ "" := by
  intro he
  subst he
  exact absurd h (by decide)

theorem contains_eq_false_iff (l : List String) (a : String) :
    l.contains a = false ↔ a ∉ l := by
  constructor
  · intro h hm
    have h2 : l.contains a = true := List.elem_eq_true_of_mem hm
    rw [h] at h2
    cases h2
  · intro h
    rw [← Bool.not_eq_true]
    intro h2
    exact h (List.elem_iff.mp h2)

theorem mem_candidatesAbsOf_isImageFile (o : Oracles) (opts : Options)
    (files : List (String × String)) (a : String)
    (h : a ∈ candidatesAbsOf o opts files) : isImageFile a = true := by
  unfold candidatesAbsOf at h
  rw [List.mem_filter] at h
  have h1 := h.1
  unfold listCandidateImages at h1
  rw [List.mem_filter] at h1
  have h2 := h1.2
  rw [Bool.and_eq_true] at h2
  exact h2.1

/-- A successful `oversized` entry records its candidate's path and
presupposes a successful dimension probe. -/
theorem oversizedEntryOf_some (o : Oracles) (opts : Options)
    (files : List (String × String)) (a : String) (e : OversizedEntry)
    (h : oversizedEntryOf o opts files a = some e) :
    e.path = a ∧ dimOf o files a ≠ none := by
  unfold oversizedEntryOf at h
  split at h
  · split at h
    · split at h
      · cases h
        constructor
        · rfl
        · simp_all
      · cases h
    · cases h
  · cases h

/-- Default options: no flags, default threshold. -/
def optsDefault : Options := ⟨false, false, false, false, false, 5600000⟩

/-- Options with only `followOpfManifestOnly` set. -/
def optsManifest : Options := ⟨false, false, false, false, true, 5600000⟩

/-- Options with only `includeSvg` set. -/
def optsSvg : Options := ⟨false, false, true, false, false, 5600000⟩

/-- Concrete oracle bundle: every markup parse yields one `img[src]`
reference `images/a.png`, every vector parse fails, the container parser
finds nothing, and every dimension probe reports 3000×2000. -/
def oraclesA : Oracles :=
  { parseMarkup := fun _ _ => ⟨["images/a.png"], [], [], []⟩
    parseSvg := fun _ => none
    containerRoot := fun _ => ""
    opfImages := fun _ => []
    imageDims := fun _ => some (3000, 2000) }

/-- As `oraclesA` but every dimension probe fails. -/
def oraclesNoDims : Oracles :=
  { oraclesA with imageDims := fun _ => none }

/-- A three-member archive: one document and two images. -/
def filesA : List (String × String) :=
  [("doc.xhtml", "body"), ("images/a.png", "PNGA"), ("images/b.png", "PNGB")]

/-- A one-member archive: a single candidate image, no container. -/
def filesC : List (String × String) := [("images/a.png", "PNG")]

/-! ### C1 — set completeness of `unreferenced` -/

/-- C1: every file reported `unreferenced` is a candidate to which no
scanned document holds a raw reference resolving (base = the document's
own path, root = the run's content root); and `unreferenced` is exactly
the candidate list minus the collected used-set. -/
theorem unreferenced_set_complete (o : Oracles) (opts : Options) (cwd : String)
    (files : List (String × String)) (f : String)
    (hf : f ∈ (validate o opts cwd files).unreferenced) :
    (∀ pt ∈ files, ∀ r ∈ extractedRawRefs o opts pt.1 pt.2,
        resolveRef cwd pt.1 r (contentRootOf o files) ≠ f) ∧
    (validate o opts cwd files).unreferenced
      = (candidatesAbsOf o opts files).filter
          (fun a => !(collectReferences o opts cwd (contentRootOf o files) files).contains a) := by
  refine ⟨?_, rfl⟩
  intro pt hpt r hr heq
  rw [validate_unreferenced_eq, List.mem_filter] at hf
  obtain ⟨hcand, hnotused⟩ := hf
  have hne : f ≠ "" :=
    isImageFile_ne_empty f (mem_candidatesAbsOf_isImageFile o opts files f hcand)
  have hmem : f ∈ collectReferences o opts cwd (contentRootOf o files) files := by
    rw [mem_collectReferences]
    refine ⟨pt, hpt, r, hr, ?_⟩
    unfold resolveRefOpt
    rw [heq, if_neg hne]
  rw [Bool.not_eq_true'] at hnotused
  exact (contains_eq_false_iff _ _).mp hnotused hmem

theorem unreferenced_set_complete_witness :
    "images/b.png" ∈ (validate oraclesA optsDefault "/" filesA).unreferenced ∧
    (∀ pt ∈ filesA, ∀ r ∈ extractedRawRefs oraclesA optsDefault pt.1 pt.2,
        resolveRef "/" pt.1 r (contentRootOf oraclesA filesA) ≠ "images/b.png") :=
  ⟨by decide,
   (unreferenced_set_complete oraclesA optsDefault "/" filesA "images/b.png" (by decide)).1⟩

/-! ### C3 — `followOpfManifestOnly` with an empty manifest-image set -/

/-- C3 counterexample: with `followOpfManifestOnly` set and an empty
manifest-image set (here: no container, hence no content root), the claim
says the restriction has no effect and the otherwise-eligible candidate
`images/a.png` is still classified; the code instead drops every candidate
(`!manifestAbs.has(p)` is true for all `p`), so `unreferenced` comes back
empty while the same archive without the flag reports the image. -/
theorem manifest_empty_cex :
    manifestAbsOf oraclesA optsManifest filesC (contentRootOf oraclesA filesC) = [] ∧
    (validate oraclesA optsManifest "/" filesC).unreferenced = [] ∧
    (validate oraclesA optsDefault "/" filesC).unreferenced = ["images/a.png"] :=
  ⟨by decide, by decide, by decide⟩

/-- C3 (amended): when `followOpfManifestOnly` is set the candidate list is
always intersected with the manifest-image set; if that set is empty every
candidate is excluded and both output lists are empty. -/
theorem manifest_empty_restricts_all (o : Oracles) (opts : Options) (cwd : String)
    (files : List (String × String))
    (hflag : opts.followOpfManifestOnly = true)
    (hempty : manifestAbsOf o opts files (contentRootOf o files) = []) :
    (validate o opts cwd files).unreferenced = [] ∧
    (validate o opts cwd files).oversized = [] := by
  have hc : candidatesAbsOf o opts files = [] := by
    unfold candidatesAbsOf
    rw [hempty]
    simp [hflag]
  rw [validate_unreferenced_eq, validate_oversized_eq, hc]
  exact ⟨rfl, rfl⟩

theorem manifest_empty_restricts_all_witness :
    (validate oraclesA optsManifest "/" filesC).unreferenced = [] ∧
    (validate oraclesA optsManifest "/" filesC).oversized = [] :=
  manifest_empty_restricts_all oraclesA optsManifest "/" filesC (by decide) (by decide)

/-! ### C7 — threshold boundary of the oversized check -/

/-- C7: for successfully probed (positive) dimensions the candidate passes
the oversized test exactly when `width * height ≥ pixelThreshold`; an area
exactly equal to the threshold passes, one pixel below fails.  Membership
in the `oversized` output is exactly candidacy plus this test. -/
theorem oversized_threshold :
    (∀ (w h : Nat) (T : Int), 0 < w → 0 < h →
        ((oversizedCheck (some (w, h)) T = true ↔ T ≤ (w : Int) * (h : Int)) ∧
          ((w : Int) * (h : Int) = T → oversizedCheck (some (w, h)) T = true) ∧
          ((w : Int) * (h : Int) = T - 1 → oversizedCheck (some (w, h)) T = false))) ∧
    (∀ (o : Oracles) (opts : Options) (cwd : String) (files : List (String × String))
        (e : OversizedEntry),
      e ∈ (validate o opts cwd files).oversized ↔
        ∃ a ∈ candidatesAbsOf o opts files, oversizedEntryOf o opts files a = some e) := by
  constructor
  · intro w h T hw hh
    have hw' : w ≠ 0 := Nat.pos_iff_ne_zero.mp hw
    have hh' : h ≠ 0 := Nat.pos_iff_ne_zero.mp hh
    have hiff : oversizedCheck (some (w, h)) T = true ↔ T ≤ (w : Int) * (h : Int) := by
      simp [oversizedCheck, hw', hh']
    refine ⟨hiff, ?_, ?_⟩
    · intro he
      exact hiff.mpr (le_of_eq he.symm)
    · intro he
      rw [← Bool.not_eq_true, hiff, he]
      omega
  · intro o opts cwd files e
    rw [validate_oversized_eq, List.mem_filterMap]

theorem oversized_threshold_witness :
    oversizedCheck (some (2, 3)) 6 = true ∧ oversizedCheck (some (2, 3)) 7 = false :=
  ⟨((oversized_threshold.1 2 3 6 (by decide) (by decide)).2.1 (by decide)),
   ((oversized_threshold.1 2 3 7 (by decide) (by decide)).2.2 (by decide))⟩

/-! ### C8 — independence of the two checks -/

/-- C8: a candidate can appear in both output lists at once (concrete
run), and a failed dimension probe removes a candidate from `oversized`
while leaving its `unreferenced` status exactly the candidate-minus-used
condition (the run, a total function, still returns a full result). -/
theorem checks_independent :
    ("images/b.png" ∈ (validate oraclesA optsDefault "/" filesA).unreferenced ∧
      ∃ e ∈ (validate oraclesA optsDefault "/" filesA).oversized, e.path = "images/b.png") ∧
    (∀ (o : Oracles) (opts : Options) (cwd a : String) (files : List (String × String)),
      dimOf o files a = none →
        (∀ e ∈ (validate o opts cwd files).oversized, e.path ≠ a) ∧
        (a ∈ (validate o opts cwd files).unreferenced ↔
          a ∈ candidatesAbsOf o opts files ∧
            a ∉ collectReferences o opts cwd (contentRootOf o files) files)) := by
  constructor
  · exact ⟨by decide, by decide⟩
  · intro o opts cwd a files hdim
    constructor
    · intro e he hpath
      rw [validate_oversized_eq, List.mem_filterMap] at he
      obtain ⟨a', ha', hsome⟩ := he
      obtain ⟨hp, hd⟩ := oversizedEntryOf_some o opts files a' e hsome
      rw [hpath] at hp
      rw [← hp] at hd
      exact hd hdim
    · rw [validate_unreferenced_eq, List.mem_filter]
      constructor
      · rintro ⟨h1, h2⟩
        rw [Bool.not_eq_true'] at h2
        exact ⟨h1, (contains_eq_false_iff _ _).mp h2⟩
      · rintro ⟨h1, h2⟩
        refine ⟨h1, ?_⟩
        rw [Bool.not_eq_true']
        exact (contains_eq_false_iff _ _).mpr h2

theorem checks_independent_witness :
    (∀ e ∈ (validate oraclesNoDims optsDefault "/" filesC).oversized,
        e.path ≠ "images/a.png") ∧
    ("images/a.png" ∈ (validate oraclesNoDims optsDefault "/" filesC).unreferenced ↔
      "images/a.png" ∈ candidatesAbsOf oraclesNoDims optsDefault filesC ∧
        "images/a.png" ∉ collectReferences oraclesNoDims optsDefault "/"
          (contentRootOf oraclesNoDims filesC) filesC) :=
  checks_independent.2 oraclesNoDims optsDefault "/" "images/a.png" filesC (by decide)

/-! ### C2 — root containment -/

theorem splitOnCharL_ne_nil (d : Char) (l : List Char) : splitOnCharL d l ≠ [] := by
  induction l with
  | nil => simp [splitOnCharL]
  | cons c rest ih =>
    simp only [splitOnCharL]
    split
    · simp
    · split
      · simp
      · simp

theorem splitSegs_append_cons (a b : List Char) :
    splitSegs (a ++ '/' :: b) = splitSegs a ++ splitSegs b := by
  unfold splitSegs
  induction a with
  | nil => simp [splitOnCharL]
  | cons c a ih =>
    by_cases hc : c = '/'
    · subst hc
      show splitOnCharL '/' ('/' :: (a ++ '/' :: b)) = splitOnCharL '/' ('/' :: a) ++ _
      simp [splitOnCharL, ih]
    · show splitOnCharL '/' (c :: (a ++ '/' :: b)) = splitOnCharL '/' (c :: a) ++ _
      simp only [splitOnCharL, if_neg hc]
      rcases hsa : splitOnCharL '/' a with _ | ⟨s, ss⟩
      · exact absurd hsa (splitOnCharL_ne_nil '/' a)
      · rw [ih, hsa]
        simp

theorem foldl_collapse_clean (ab : Bool) (B : List (List Char))
    (hB : ∀ s ∈ B, s ≠ ['.'] ∧ s ≠ ['.', '.']) (racc : List (List Char)) :
    List.foldl (collapseStepR ab) racc B
      = (B.filter (fun s => decide (s ≠ []))).reverse ++ racc := by
  induction B generalizing racc with
  | nil => simp
  | cons s B ih =>
    have hs : s ≠ ['.'] ∧ s ≠ ['.', '.'] := hB s (by simp)
    have hB2 : ∀ x ∈ B, x ≠ ['.'] ∧ x ≠ ['.', '.'] := fun x hx => hB x (by simp [hx])
    rw [List.foldl_cons]
    by_cases hse : s = []
    · subst hse
      have hstep : collapseStepR ab racc [] = racc := by
        unfold collapseStepR
        rw [if_pos (Or.inl rfl)]
      rw [hstep, ih hB2]
      simp
    · have hstep : collapseStepR ab racc s = s :: racc := by
        unfold collapseStepR
        rw [if_neg (by simp [hse, hs.1]), if_neg hs.2]
      rw [hstep, ih hB2]
      rw [List.filter_cons_of_pos (by simp [hse])]
      simp

theorem collapseSegs_append_clean (ab : Bool) (A B : List (List Char))
    (hB : ∀ s ∈ B, s ≠ ['.'] ∧ s ≠ ['.', '.']) :
    collapseSegs ab (A ++ B)
      = collapseSegs ab A ++ B.filter (fun s => decide (s ≠ [])) := by
  unfold collapseSegs
  rw [List.foldl_append, foldl_collapse_clean ab B hB]
  simp

/-- `path.posix.resolve` of a relative path whose segments are free of
`.`/`..`: the working directory's collapsed segments followed by the
path's non-empty segments. -/
theorem resolveSegsL_rel (cwd p : List Char) (hrel : ¬ p.head? = some '/')
    (hclean : ∀ s ∈ splitSegs p, s ≠ ['.'] ∧ s ≠ ['.', '.']) :
    resolveSegsL cwd p = collapseSegs false (splitSegs cwd)
      ++ (splitSegs p).filter (fun s => decide (s ≠ [])) := by
  unfold resolveSegsL
  rw [if_neg hrel, splitSegs_append_cons]
  exact collapseSegs_append_clean false _ _ hclean

theorem commonPrefixLen_le_left (a b : List (List Char)) :
    commonPrefixLen a b ≤ a.length := by
  induction a generalizing b with
  | nil => rcases b with _ | ⟨y, bs⟩ <;> simp [commonPrefixLen]
  | cons x as ih =>
    rcases b with _ | ⟨y, bs⟩
    · simp [commonPrefixLen]
    · simp only [commonPrefixLen]
      split_ifs
      · have := ih bs
        simp
        omega
      · simp

theorem prefix_of_commonPrefixLen (a b : List (List Char))
    (h : commonPrefixLen a b = a.length) : a <+: b := by
  induction a generalizing b with
  | nil => exact List.nil_prefix
  | cons x as ih =>
    rcases b with _ | ⟨y, bs⟩
    · simp [commonPrefixLen] at h
    · simp only [commonPrefixLen] at h
      split_ifs at h with hxy
      · subst hxy
        have hlen : commonPrefixLen as bs = as.length := by
          simp at h
          omega
        obtain ⟨t, ht⟩ := ih bs hlen
        exact ⟨t, by rw [List.cons_append, ht]⟩
      · simp at h

theorem prefix_append_cancel (C a b : List (List Char)) (h : C ++ a <+: C ++ b) :
    a <+: b := by
  obtain ⟨t, ht⟩ := h
  rw [List.append_assoc] at ht
  exact ⟨t, List.append_cancel_left ht⟩

theorem startsWith_dd_join (k : Nat) (hk : 0 < k) (rest : List (List Char)) :
    startsWithL ['.', '.'] (joinSegsL (List.replicate k ['.', '.'] ++ rest)) = true := by
  rcases k with _ | k
  · omega
  · rw [List.replicate_succ, List.cons_append]
    rcases hX : List.replicate k ['.', '.'] ++ rest with _ | ⟨s, ss⟩
    · decide
    · show startsWithL ['.', '.'] (joinSegsL (['.', '.'] :: s :: ss)) = true
      simp only [startsWithL, decide_eq_true_eq]
      exact ⟨'/' :: joinSegsL (s :: ss), rfl⟩

/-- C2 counterexample: with the non-empty root `'.'`, the reference
`img.png` from `doc.xhtml` resolves to `img.png`, which is not prefixed by
the root — refuting "every non-Unresolvable result returned under a
non-empty root is a path prefixed by root" as universally stated. -/
theorem root_containment_cex :
    resolveRef "/" "doc.xhtml" "img.png" "." = "img.png" ∧
    ("." : String) ≠ "" ∧
    startsWithL ".".data "img.png".data = false :=
  ⟨by decide, by decide, by decide⟩

/-- C2 (amended): (1) whenever the relative path from the (normalized)
root to the resolved path starts with `..`, `resolveRef` returns
Unresolvable — the code's containment test, for every base, reference and
non-empty root.  (2) When the normalized root is a relative path whose
segments contain no `.`/`..`, and the resolved path is likewise relative
and dot-free, every non-Unresolvable result is exactly the resolved path
and the root's non-empty segments are an initial prefix of the result's
non-empty segments (the segment-level sense of "prefixed by root"). -/
theorem root_containment_amended :
    (∀ cwd base href root : String, root ≠ "" →
      startsWithL ['.', '.'] (posixRelativeL cwd.data (normalizeL root.data)
          (resolvedPathL base.data href.data)) = true →
      resolveRef cwd base href root = "") ∧
    (∀ cwd base href root : String, root ≠ "" →
      (∀ s ∈ splitSegs (normalizeL root.data), s ≠ ['.'] ∧ s ≠ ['.', '.']) →
      ¬ (normalizeL root.data).head? = some '/' →
      (∀ s ∈ splitSegs (resolvedPathL base.data href.data), s ≠ ['.'] ∧ s ≠ ['.', '.']) →
      ¬ (resolvedPathL base.data href.data).head? = some '/' →
      resolveRef cwd base href root ≠ "" →
      resolveRef cwd base href root = ⟨resolvedPathL base.data href.data⟩ ∧
        (splitSegs (normalizeL root.data)).filter (fun s => decide (s ≠ []))
          <+: (splitSegs (resolvedPathL base.data href.data)).filter
                (fun s => decide (s ≠ []))) := by
  constructor
  · intro cwd base href root hroot hrel
    apply String.ext
    show resolveRefL cwd.data base.data href.data root.data = []
    by_cases h1 : href.data = []
    · rw [h1]
      simp [resolveRefL]
    · by_cases h2 : (urlLikeL href.data ||
          startsWithL ['d', 'a', 't', 'a', ':'] href.data) = true
      · exact resolveRefL_rejected _ _ _ _ h2
      · rw [resolveRefL_main _ _ _ _ h1 (Bool.eq_false_iff.mpr h2)]
        have hrd : root.data ≠ [] := fun hh => hroot (String.ext hh)
        rw [if_pos hrd, if_pos hrel]
  · intro cwd base href root hroot hrClean hrRel haClean haRel hne
    have h1 : href.data ≠ [] := by
      intro hh
      apply hne
      apply String.ext
      show resolveRefL cwd.data base.data href.data root.data = []
      rw [hh]
      simp [resolveRefL]
    have h2 : (urlLikeL href.data ||
        startsWithL ['d', 'a', 't', 'a', ':'] href.data) = false := by
      by_cases hb : (urlLikeL href.data ||
          startsWithL ['d', 'a', 't', 'a', ':'] href.data) = true
      · exact absurd
          (String.ext (resolveRefL_rejected cwd.data base.data href.data root.data hb) :
            resolveRef cwd base href root = "") hne
      · exact Bool.eq_false_iff.mpr hb
    have hmain := resolveRefL_main cwd.data base.data href.data root.data h1 h2
    have hrd : root.data ≠ [] := fun hh => hroot (String.ext hh)
    rw [if_pos hrd] at hmain
    by_cases hdd : startsWithL ['.', '.'] (posixRelativeL cwd.data
        (normalizeL root.data) (resolvedPathL base.data href.data)) = true
    · rw [if_pos hdd] at hmain
      exact absurd (String.ext hmain : resolveRef cwd base href root = "") hne
    · rw [if_neg hdd] at hmain
      refine ⟨String.ext hmain, ?_⟩
      have hF := resolveSegsL_rel cwd.data (normalizeL root.data) hrRel hrClean
      have hT := resolveSegsL_rel cwd.data (resolvedPathL base.data href.data)
        haRel haClean
      have hk : (resolveSegsL cwd.data (normalizeL root.data)).length -
          commonPrefixLen (resolveSegsL cwd.data (normalizeL root.data))
            (resolveSegsL cwd.data (resolvedPathL base.data href.data)) = 0 := by
        by_contra hk0
        apply hdd
        show startsWithL ['.', '.'] (joinSegsL
          (List.replicate ((resolveSegsL cwd.data (normalizeL root.data)).length -
              commonPrefixLen (resolveSegsL cwd.data (normalizeL root.data))
                (resolveSegsL cwd.data (resolvedPathL base.data href.data))) ['.', '.'] ++
            (resolveSegsL cwd.data (resolvedPathL base.data href.data)).drop
              (commonPrefixLen (resolveSegsL cwd.data (normalizeL root.data))
                (resolveSegsL cwd.data (resolvedPathL base.data href.data))))) = true
        exact startsWith_dd_join _ (Nat.pos_of_ne_zero hk0) _
      have hcp : commonPrefixLen (resolveSegsL cwd.data (normalizeL root.data))
          (resolveSegsL cwd.data (resolvedPathL base.data href.data))
          = (resolveSegsL cwd.data (normalizeL root.data)).length := by
        have := commonPrefixLen_le_left (resolveSegsL cwd.data (normalizeL root.data))
          (resolveSegsL cwd.data (resolvedPathL base.data href.data))
        omega
      have hFT := prefix_of_commonPrefixLen _ _ hcp
      rw [hF, hT] at hFT
      exact prefix_append_cancel _ _ _ hFT

theorem root_containment_amended_witness :
    resolveRef "/" "OEBPS/doc.xhtml" "../secret.png" "OEBPS/" = "" ∧
    (splitSegs (normalizeL "OEBPS/".data)).filter (fun s => decide (s ≠ []))
      <+: (splitSegs (resolvedPathL "OEBPS/doc.xhtml".data "images/a.png".data)).filter
            (fun s => decide (s ≠ [])) :=
  ⟨root_containment_amended.1 "/" "OEBPS/doc.xhtml" "../secret.png" "OEBPS/"
      (by decide) (by decide),
   (root_containment_amended.2 "/" "OEBPS/doc.xhtml" "images/a.png" "OEBPS/"
      (by decide) (by decide) (by decide) (by decide) (by decide) (by decide)).2⟩

/-! ### C4 — leading-slash references -/

theorem dropWhile_of_trim (t : List Char) (htrim : jsTrimL t = t) :
    List.dropWhile isJsWs t = t := by
  apply (List.dropWhile_suffix isJsWs).eq_of_length
  have l1 : (List.dropWhile isJsWs t).length ≤ t.length :=
    (List.dropWhile_suffix isJsWs).length_le
  have l2 : (jsTrimL t).length ≤ (List.dropWhile isJsWs t).length := by
    unfold jsTrimL
    rw [List.length_reverse]
    calc ((List.dropWhile isJsWs t).reverse.dropWhile isJsWs).length
        ≤ (List.dropWhile isJsWs t).reverse.length :=
          (List.dropWhile_suffix isJsWs).length_le
      _ = (List.dropWhile isJsWs t).length := List.length_reverse _
  rw [htrim] at l2
  omega

theorem rtrim_of_trim (t : List Char) (htrim : jsTrimL t = t) :
    t.reverse.dropWhile isJsWs = t.reverse := by
  have h1 := dropWhile_of_trim t htrim
  have h2 : (t.reverse.dropWhile isJsWs).reverse = t := by
    have h3 := htrim
    unfold jsTrimL at h3
    rw [h1] at h3
    exact h3
  calc t.reverse.dropWhile isJsWs
      = ((t.reverse.dropWhile isJsWs).reverse).reverse := (List.reverse_reverse _).symm
    _ = t.reverse := by rw [h2]

theorem head_not_of_dropWhile_self (p : Char → Bool) (c : Char) (X : List Char)
    (h : (c :: X).dropWhile p = c :: X) : p c = false := by
  by_cases pc : p c = true
  · rw [List.dropWhile_cons_of_pos pc] at h
    have hlen := congrArg List.length h
    have hle : (X.dropWhile p).length ≤ X.length := (List.dropWhile_suffix p).length_le
    simp at hlen
    omega
  · exact Bool.eq_false_iff.mpr pc

theorem jsTrimL_slash_cons (t : List Char) (h0 : t ≠ [])
    (htrim : jsTrimL t = t) : jsTrimL ('/' :: t) = '/' :: t := by
  unfold jsTrimL
  rw [List.dropWhile_cons_of_neg (by decide)]
  have hrev : ('/' :: t).reverse = t.reverse ++ ['/'] := by simp
  rw [hrev]
  rcases hr : t.reverse with _ | ⟨c, r⟩
  · exact absurd (by simpa using congrArg List.reverse hr) h0
  · have hd : t.reverse.dropWhile isJsWs = t.reverse := rtrim_of_trim t htrim
    rw [hr] at hd
    have hc : isJsWs c = false := head_not_of_dropWhile_self isJsWs c r hd
    rw [List.cons_append, List.dropWhile_cons_of_neg (by simp [hc])]
    rw [← List.cons_append, ← hr]
    simp

theorem stripQH_slash_cons (t : List Char) :
    stripQueryAndHashL ('/' :: t) = '/' :: stripQueryAndHashL t := by
  unfold stripQueryAndHashL
  rw [List.takeWhile_cons_of_pos (by decide), List.takeWhile_cons_of_pos (by decide)]

theorem percentDecodeL_cons_ne (c : Char) (u : List Char) (hc : ¬ c = '%') :
    percentDecodeL (c :: u) = (percentDecodeL u).map (fun t => c :: t) := by
  rcases u with _ | ⟨a, u1⟩
  · simp only [percentDecodeL]
    rw [if_neg hc]
  · rcases u1 with _ | ⟨b, r⟩
    · simp only [percentDecodeL]
      rw [if_neg hc]
    · simp only [percentDecodeL]
      rw [if_neg hc]

theorem decodeRefL_cons_slash (u : List Char) :
    decodeRefL ('/' :: u) = '/' :: decodeRefL u := by
  unfold decodeRefL
  rw [percentDecodeL_cons_ne '/' u (by decide)]
  rcases percentDecodeL u with _ | d <;> simp

theorem takeWhile_head_some (p : Char → Bool) (l : List Char) (d : Char)
    (h : (l.takeWhile p).head? = some d) : l.head? = some d := by
  rcases l with _ | ⟨c, u⟩
  · simp at h
  · by_cases pc : p c = true
    · rw [List.takeWhile_cons_of_pos pc] at h
      simpa using h
    · rw [List.takeWhile_cons_of_neg pc] at h
      simp at h

theorem stripQH_head_ne (t : List Char) (h : t.head? ≠ some '/') :
    (stripQueryAndHashL t).head? ≠ some '/' := by
  intro hh
  exact h (takeWhile_head_some _ _ _ (takeWhile_head_some _ _ _ hh))

theorem decodeRefL_head_ne (l : List Char) (h : l.head? ≠ some '/') :
    (decodeRefL l).head? ≠ some '/' := by
  rcases l with _ | ⟨c, u⟩
  · decide
  · by_cases hc : c = '%'
    · subst hc
      rcases u with _ | ⟨a, u1⟩
      · decide
      · rcases u1 with _ | ⟨b, r⟩
        · have he : decodeRefL ['%', a] = ['%', a] := rfl
          rw [he]
          intro hcon
          exact absurd (Option.some.inj hcon) (by decide)
        · unfold decodeRefL
          have he : percentDecodeL ('%' :: a :: b :: r)
              = if (isHexDigitCh a && isHexDigitCh b) = true then
                  (if hexValCh a * 16 + hexValCh b < 128 then
                    (if uriKeepEscaped (hexValCh a * 16 + hexValCh b) = true then
                      (percentDecodeL r).map (fun t => '%' :: a :: b :: t)
                    else (percentDecodeL r).map
                      (fun t => Char.ofNat (hexValCh a * 16 + hexValCh b) :: t))
                  else none)
                else none := by
            simp only [percentDecodeL]
            rw [if_pos trivial]
          rw [he]
          by_cases hh : (isHexDigitCh a && isHexDigitCh b) = true
          · rw [if_pos hh]
            by_cases hv : hexValCh a * 16 + hexValCh b < 128
            · rw [if_pos hv]
              by_cases hk : uriKeepEscaped (hexValCh a * 16 + hexValCh b) = true
              · rw [if_pos hk]
                rcases percentDecodeL r with _ | d <;> simp
              · rw [if_neg hk]
                rcases percentDecodeL r with _ | d
                · simp
                · simp
                  have hall : ∀ v : Nat, v < 128 → uriKeepEscaped v = false →
                      Char.ofNat v ≠ '/' := by decide
                  exact hall _ hv (Bool.eq_false_iff.mpr hk)
            · rw [if_neg hv]
              simp
          · rw [if_neg hh]
            simp
    · unfold decodeRefL
      rw [percentDecodeL_cons_ne c u hc]
      have hcn : c ≠ '/' := by
        intro hcc
        exact h (by rw [hcc]; rfl)
      rcases percentDecodeL u with _ | d <;> simp [hcn]

theorem startsWithL_single_iff (c : Char) (l : List Char) :
    startsWithL [c] l = true ↔ l.head? = some c := by
  constructor
  · intro hs
    rw [startsWithL, decide_eq_true_eq] at hs
    obtain ⟨t2, ht⟩ := hs
    rw [← ht]
    rfl
  · intro hh
    rcases l with _ | ⟨d, t⟩
    · simp at hh
    · have hd : d = c := by simpa using hh
      rw [startsWithL, decide_eq_true_eq, hd]
      exact ⟨t, rfl⟩

theorem urlLikeL_slash_cons (t : List Char) (hslash : t.head? ≠ some '/') :
    urlLikeL ('/' :: t) = false := by
  unfold urlLikeL
  have h1 : startsWithL ['/', '/'] ('/' :: t) = false := by
    rw [startsWithL, decide_eq_false_iff_not]
    rintro ⟨t2, ht⟩
    simp at ht
    exact hslash (by rw [← ht]; rfl)
  have h2 : List.takeWhile isAsciiAlpha ('/' :: t) = [] :=
    List.takeWhile_cons_of_neg (by decide)
  rw [h1, h2]
  simp

theorem startsWithL_data_slash (t : List Char) :
    startsWithL ['d', 'a', 't', 'a', ':'] ('/' :: t) = false := by
  rw [startsWithL, decide_eq_false_iff_not]
  rintro ⟨t2, ht⟩
  simp at ht

/-- Dropping the leading slash makes the joined path identical to the
slash-free reference's: both are joined against the base directory. -/
theorem resolvedPathL_slash (base t : List Char) (h0 : t ≠ [])
    (htrim : jsTrimL t = t) (hslash : t.head? ≠ some '/') :
    resolvedPathL base ('/' :: t) = resolvedPathL base t := by
  have hx : (decodeRefL (stripQueryAndHashL t)).head? ≠ some '/' :=
    decodeRefL_head_ne _ (stripQH_head_ne t hslash)
  show normalizeL (posixNormalizeL (normalizeL (posixJoin2L (dropLastSegL (normalizeL base))
      (if startsWithL ['/'] (decodeRefL (stripQueryAndHashL (jsTrimL ('/' :: t)))) = true
        then (decodeRefL (stripQueryAndHashL (jsTrimL ('/' :: t)))).tail
        else decodeRefL (stripQueryAndHashL (jsTrimL ('/' :: t)))))))
    = normalizeL (posixNormalizeL (normalizeL (posixJoin2L (dropLastSegL (normalizeL base))
      (if startsWithL ['/'] (decodeRefL (stripQueryAndHashL (jsTrimL t))) = true
        then (decodeRefL (stripQueryAndHashL (jsTrimL t))).tail
        else decodeRefL (stripQueryAndHashL (jsTrimL t))))))
  rw [jsTrimL_slash_cons t h0 htrim, htrim, stripQH_slash_cons, decodeRefL_cons_slash,
    if_pos ((startsWithL_single_iff '/'
      ('/' :: decodeRefL (stripQueryAndHashL t))).mpr rfl),
    if_neg (fun hs => hx ((startsWithL_single_iff '/'
      (decodeRefL (stripQueryAndHashL t))).mp hs))]
  rfl

/-- C4 counterexample: the same archive-absolute reference `/img/x.png`
resolves differently from two documents inside the same root, and from the
nested document it does not resolve to root + remainder — the slash-less
remainder is joined against the document's directory, not the root. -/
theorem slash_ref_cex :
    resolveRef "/" "OEBPS/sub/b.xhtml" "/img/x.png" "OEBPS/" = "OEBPS/sub/img/x.png" ∧
    resolveRef "/" "OEBPS/a.xhtml" "/img/x.png" "OEBPS/" = "OEBPS/img/x.png" ∧
    ("OEBPS/sub/img/x.png" : String) ≠ "OEBPS/img/x.png" :=
  ⟨by decide, by decide, by decide⟩

/-- C4 (amended): a reference beginning with `/` has its leading slash
dropped and is then resolved exactly like the same reference without the
slash — i.e. against the directory of `basePath`, not against the root, so
the result depends on which document contains the reference. -/
theorem slash_ref_base_relative (cwd base root : String) (tail : List Char)
    (h0 : tail ≠ []) (htrim : jsTrimL tail = tail)
    (hurl : urlLikeL tail = false)
    (hdata : startsWithL ['d', 'a', 't', 'a', ':'] tail = false)
    (hslash : tail.head? ≠ some '/') :
    resolveRef cwd base ⟨'/' :: tail⟩ root = resolveRef cwd base ⟨tail⟩ root := by
  apply String.ext
  show resolveRefL cwd.data base.data ('/' :: tail) root.data
      = resolveRefL cwd.data base.data tail root.data
  have hL2 : (urlLikeL ('/' :: tail) ||
      startsWithL ['d', 'a', 't', 'a', ':'] ('/' :: tail)) = false := by
    rw [urlLikeL_slash_cons tail hslash, startsWithL_data_slash]
    rfl
  have hR2 : (urlLikeL tail || startsWithL ['d', 'a', 't', 'a', ':'] tail) = false := by
    rw [hurl, hdata]
    rfl
  rw [resolveRefL_main _ _ _ _ (by simp) hL2, resolveRefL_main _ _ _ _ h0 hR2,
    resolvedPathL_slash base.data tail h0 htrim hslash]

theorem slash_ref_base_relative_witness :
    resolveRef "/" "OEBPS/a.xhtml" "/img/x.png" "OEBPS/"
      = resolveRef "/" "OEBPS/a.xhtml" "img/x.png" "OEBPS/" :=
  slash_ref_base_relative "/" "OEBPS/a.xhtml" "OEBPS/" "img/x.png".data
    (by decide) (by decide) (by decide) (by decide) (by decide)

/-! ### C9 — a failed vector parse is non-fatal -/

/-- C9: a vector document whose XML parse fails (`cheerio.load` throws,
the source's `catch` ignores it) contributes no references; every other
archive member is still processed and the collected used-set is exactly
the one of the archive without that document.  Markup extraction
(error-tolerant parser) and stylesheet extraction (regex scan) are total in
the source and cannot fail, and the run — a total function — still yields a
full classification result. -/
theorem svg_parse_failure_nonfatal (o : Oracles) (opts : Options) (cwd root p t : String)
    (A B : List (String × String))
    (hsvg : o.parseSvg t = none)
    (hdoc : isDocPath opts p = false) (hcss : isCssPath p = false) :
    collectReferences o opts cwd root (A ++ (p, t) :: B)
      = collectReferences o opts cwd root (A ++ B) := by
  unfold collectReferences
  rw [List.flatMap_append, List.flatMap_cons, List.flatMap_append]
  have hnil : extractedRawRefs o opts p t = [] := by
    unfold extractedRawRefs
    rw [hdoc, hcss, hsvg]
    simp
  simp [hnil]

theorem svg_parse_failure_nonfatal_witness :
    collectReferences oraclesA optsSvg "/" ""
        ([("doc.xhtml", "body")] ++ ("broken.svg", "notxml") :: [("style.css", "x")])
      = collectReferences oraclesA optsSvg "/" ""
          ([("doc.xhtml", "body")] ++ [("style.css", "x")]) :=
  svg_parse_failure_nonfatal oraclesA optsSvg "/" "" "broken.svg" "notxml"
    [("doc.xhtml", "body")] [("style.css", "x")] rfl (by decide) (by decide)

end EpubAudit
